import Mathlib

/-!
Formal model of the layer-assembly core of the Pintu ai-services image
processor (`app/services/processor.py`, `app/services/sam_service.py`,
`app/services/ocr_service.py`), with proofs about the IoU geometry, the
segment classifier, the segment/text matching step, layer assembly and
z-ordering, and text-color detection.

Numeric modelling: Python ints are `Int`; Python float arithmetic on these
quantities (IoU ratios, centers, fractional thresholds) is modelled exactly
with `ℚ`.  The provider-supplied fields that the assembly core never reads
(`predicted_iou`, `stability_score`, `aspect_ratio`, `polygon`) are omitted
from the record types.  The image-dependent color samplers
(`_get_text_color`, `_get_dominant_color`), which call into external
libraries (cv2 / ColorThief), enter the assembler as function parameters.
-/

/-- A bounding box `{x, y, width, height}` in integer pixel coordinates. -/
@[ext]
structure BBox where
  x : Int
  y : Int
  width : Int
  height : Int
  deriving DecidableEq, Repr

/-- A center point `{x, y}` (float-valued in the source, modelled as `ℚ`). -/
@[ext]
structure Center where
  x : ℚ
  y : ℚ
  deriving DecidableEq, Repr

/-- A SAM segment, restricted to the fields read by the assembly core. -/
structure Segment where
  id : String
  type : String
  bbox : BBox
  center : Center
  area : Int
  mask : List (List Bool)
  deriving DecidableEq, Repr

/-- An OCR text element, restricted to the fields read by the assembly core. -/
structure TextElem where
  id : String
  content : String
  confidence : ℚ
  bbox : BBox
  center : Center
  font_size : Int
  deriving DecidableEq, Repr

/-- The `text` substructure of an assembled layer (`layer['text']`). -/
structure TextAttrs where
  content : String
  font_size : Int
  font_family : String
  color : String
  bold : Bool
  italic : Bool
  underline : Bool
  align : String
  deriving DecidableEq, Repr

/-- The `style` substructure of an assembled layer (`layer['style']`). -/
structure StyleAttrs where
  fill_color : String
  stroke_color : Option String
  stroke_width : Int
  deriving DecidableEq, Repr

/-- An assembled output layer.  Keys that are present in some layer dicts and
absent in others (`area`, `mask`, `content`, `text`, `style`, `confidence`)
are modelled as `Option` fields, `none` meaning the key is absent (or `None`
for `content`). -/
structure Layer where
  id : String
  type : String
  bbox : BBox
  center : Center
  area : Option Int
  mask : Option (List (List Bool))
  content : Option String
  text : Option TextAttrs
  style : Option StyleAttrs
  confidence : Option ℚ
  editable : Bool
  locked : Bool
  visible : Bool
  deriving DecidableEq, Repr

/-! ### Geometry: `ImageProcessor._calculate_iou` -/

/-- `ImageProcessor._calculate_iou`: intersection over union of two
bounding boxes.  Integer arithmetic throughout, with a single float
division at the end (modelled by `ℚ` division). -/
def calculate_iou (bbox1 bbox2 : BBox) : ℚ :=
  let x1_min := bbox1.x
  let y1_min := bbox1.y
  let x1_max := bbox1.x + bbox1.width
  let y1_max := bbox1.y + bbox1.height
  let x2_min := bbox2.x
  let y2_min := bbox2.y
  let x2_max := bbox2.x + bbox2.width
  let y2_max := bbox2.y + bbox2.height
  let x_inter_min := max x1_min x2_min
  let y_inter_min := max y1_min y2_min
  let x_inter_max := min x1_max x2_max
  let y_inter_max := min y1_max y2_max
  if x_inter_max < x_inter_min ∨ y_inter_max < y_inter_min then 0
  else
    let inter_area := (x_inter_max - x_inter_min) * (y_inter_max - y_inter_min)
    let bbox1_area := bbox1.width * bbox1.height
    let bbox2_area := bbox2.width * bbox2.height
    let union_area := bbox1_area + bbox2_area - inter_area
    if union_area = 0 then 0
    else (inter_area : ℚ) / (union_area : ℚ)

/-- Width of the intersection rectangle as computed inside
`_calculate_iou` (may be negative when the boxes do not overlap). -/
def interW (a b : BBox) : Int :=
  min (a.x + a.width) (b.x + b.width) - max a.x b.x

/-- Height of the intersection rectangle as computed inside
`_calculate_iou` (may be negative when the boxes do not overlap). -/
def interH (a b : BBox) : Int :=
  min (a.y + a.height) (b.y + b.height) - max a.y b.y

/-- `bbox['width'] * bbox['height']`, the box area term of `_calculate_iou`. -/
def boxArea (a : BBox) : Int := a.width * a.height

/-- `_calculate_iou` rephrased through the named intersection quantities. -/
lemma iou_eq (a b : BBox) :
    calculate_iou a b =
      if min (a.x + a.width) (b.x + b.width) < max a.x b.x ∨
          min (a.y + a.height) (b.y + b.height) < max a.y b.y then 0
      else if boxArea a + boxArea b - interW a b * interH a b = 0 then 0
      else ((interW a b * interH a b : Int) : ℚ) /
        ((boxArea a + boxArea b - interW a b * interH a b : Int) : ℚ) := rfl

/-- The two boxes are geometrically disjoint (separated along an axis). -/
def boxesDisjoint (a b : BBox) : Prop :=
  a.x + a.width < b.x ∨ b.x + b.width < a.x ∨
    a.y + a.height < b.y ∨ b.y + b.height < a.y

/-! ### Segment classifier: `SAMService._infer_segment_type` -/

/-- `SAMService._infer_segment_type`: rule-based type inference from the
aspect ratio, the segment area and the image shape `(h, w)`.  The source
divides by `total_area`, so it presumes a non-degenerate image. -/
def infer_segment_type (aspect : ℚ) (area : Int) (image_shape : Int × Int) : String :=
  let total_area := image_shape.1 * image_shape.2
  let areaFrac : ℚ := (area : ℚ) / (total_area : ℚ)
  if areaFrac > 1/2 then "background"
  else if 3/2 < aspect ∧ aspect < 10 ∧ areaFrac < 3/10 then "text"
  else if 1/2 < aspect ∧ aspect < 2 ∧ areaFrac < 1/10 then "icon"
  else "shape"

/-- First-match-wins evaluation of an ordered list of (condition, label)
rules, falling back to a default label.  Modelled from the spec: §4.2
prescribes "ordered rule evaluation (first matching rule wins)". -/
def evalRules (rules : List (Bool × String)) (dflt : String) : String :=
  match rules with
  | [] => dflt
  | (c, lbl) :: rest => if c then lbl else evalRules rest dflt

/-- The classifier's rule list in the order given by the spec (§4.2),
expressed over the aspect ratio and the area fraction.  Modelled from the
spec's wording; compared against `infer_segment_type` below. -/
def classifierSpecRules (aspect areaFrac : ℚ) : List (Bool × String) :=
  [ (decide (areaFrac > 1/2), "background"),
    (decide (3/2 < aspect ∧ aspect < 10 ∧ areaFrac < 3/10), "text"),
    (decide (1/2 < aspect ∧ aspect < 2 ∧ areaFrac < 1/10), "icon") ]

/-! ### Matching: `ImageProcessor._find_matching_text` -/

/-- The `center_inside` test of `_find_matching_text`: the point lies in the
box, closed intervals (both comparisons are `<=` in the source). -/
def containsPoint (box : BBox) (p : Center) : Bool :=
  decide ((box.x : ℚ) ≤ p.x ∧ p.x ≤ (box.x : ℚ) + (box.width : ℚ) ∧
    (box.y : ℚ) ≤ p.y ∧ p.y ≤ (box.y : ℚ) + (box.height : ℚ))

/-- The loop of `_find_matching_text`, carrying the running `best_match` and
`best_iou` accumulators through the remaining OCR results. -/
def find_aux (seg : Segment) (matched_ids : List String) :
    List TextElem → Option TextElem → ℚ → Option TextElem
  | [], best, _ => best
  | t :: rest, best, best_iou =>
    if t.id ∈ matched_ids then
      find_aux seg matched_ids rest best best_iou
    else
      let iou := calculate_iou seg.bbox t.bbox
      if iou > 1/2 ∨ (containsPoint seg.bbox t.center = true ∧ iou > 3/10) then
        if iou > best_iou then
          find_aux seg matched_ids rest (some t) iou
        else
          find_aux seg matched_ids rest best best_iou
      else
        find_aux seg matched_ids rest best best_iou

/-- `ImageProcessor._find_matching_text`: scan the OCR results in order with
`best_match = None`, `best_iou = 0.0`. -/
def find_matching_text (segment : Segment) (ocr_results : List TextElem)
    (matched_ids : List String) : Option TextElem :=
  find_aux segment matched_ids ocr_results none 0

/-- The candidate-acceptance condition of `_find_matching_text` applied to a
not-yet-matched text element: `iou > 0.5 or (center_inside and iou > 0.3)`. -/
def acceptedCand (segment : Segment) (matched_ids : List String) (t : TextElem) : Prop :=
  t.id ∉ matched_ids ∧
    (calculate_iou segment.bbox t.bbox > 1/2 ∨
      (containsPoint segment.bbox t.center = true ∧
        calculate_iou segment.bbox t.bbox > 3/10))

/-! ### A stable sort

Python's `list.sort` is a stable sort by the (lexicographically compared)
key tuple.  A stable sort by a total preorder is uniquely determined, so it
is modelled by a straightforward insertion sort, which the kernel can
evaluate on concrete inputs.  `insertOrd le x ys` places `x` before the
first element `y` of `ys` with `le x y`. -/
def insertOrd (le : α → α → Bool) (x : α) : List α → List α
  | [] => [x]
  | y :: ys => if le x y then x :: y :: ys else y :: insertOrd le x ys

/-- Stable insertion sort by the boolean preorder `le`. -/
def stableSort (le : α → α → Bool) : List α → List α
  | [] => []
  | x :: xs => insertOrd le x (stableSort le xs)

/-! ### Assembly: `ImageProcessor._match_segments_with_text` -/

/-- `ImageProcessor._detect_text_alignment`: classify horizontal alignment
from the box center against the 0.33/0.67 fractions of the image width. -/
def detect_text_alignment (bbox : BBox) (image_width : Int) : String :=
  let center_x : ℚ := (bbox.x : ℚ) + (bbox.width : ℚ) / 2
  let left_threshold : ℚ := (image_width : ℚ) * (33/100)
  let right_threshold : ℚ := (image_width : ℚ) * (67/100)
  if center_x < left_threshold then "left"
  else if center_x > right_threshold then "right"
  else "center"

/-- The layer dict built for one segment in the loop of
`_match_segments_with_text`: the base layer, then either the text branch
(when a matching text element was found) or the style branch.  `gtc` and
`gdc` stand for the image-closed color samplers `_get_text_color` and
`_get_dominant_color`; `W` is `image.shape[1]`. -/
def mkSegmentLayer (gtc gdc : BBox → String) (W : Int) (segment : Segment)
    (matching_text : Option TextElem) : Layer :=
  match matching_text with
  | some mt =>
    { id := segment.id
      type := "text"
      bbox := segment.bbox
      center := segment.center
      area := some segment.area
      mask := some segment.mask
      content := some mt.content
      text := some
        { content := mt.content
          font_size := mt.font_size
          font_family := "Arial"
          color := gtc mt.bbox
          bold := false
          italic := false
          underline := false
          align := detect_text_alignment mt.bbox W }
      style := none
      confidence := some mt.confidence
      editable := true
      locked := false
      visible := true }
  | none =>
    { id := segment.id
      type := segment.type
      bbox := segment.bbox
      center := segment.center
      area := some segment.area
      mask := some segment.mask
      content := none
      text := none
      style := some { fill_color := gdc segment.bbox, stroke_color := none, stroke_width := 0 }
      confidence := none
      editable := true
      locked := false
      visible := true }

/-- The layer dict built for a text element never matched to any segment
(the second loop of `_match_segments_with_text`); it has no `area` and no
`mask` key. -/
def mkUnmatchedTextLayer (gtc : BBox → String) (W : Int) (t : TextElem) : Layer :=
  { id := t.id
    type := "text"
    bbox := t.bbox
    center := t.center
    area := none
    mask := none
    content := some t.content
    text := some
      { content := t.content
        font_size := t.font_size
        font_family := "Arial"
        color := gtc t.bbox
        bold := false
        italic := false
        underline := false
        align := detect_text_alignment t.bbox W }
    style := none
    confidence := some t.confidence
    editable := true
    locked := false
    visible := true }

/-- The matching pass of the segment loop in `_match_segments_with_text`:
for each segment in order, look up its matching text element against the
current matched-id set, and record the id of a selected text element.
Returns the per-segment selections alongside the final matched-id set
(`matched_text_ids` is a Python set used only for membership, modelled as
the insertion-ordered list of added ids). -/
def selectTexts : List Segment → List TextElem → List String →
    List (Segment × Option TextElem) × List String
  | [], _, matched => ([], matched)
  | s :: rest, ocr, matched =>
    let m := find_matching_text s ocr matched
    let matched' :=
      match m with
      | some t => matched ++ [t.id]
      | none => matched
    let res := selectTexts rest ocr matched'
    ((s, m) :: res.1, res.2)

/-- The ids of the text elements selected by a list of per-segment
selections. -/
def selIds (ps : List (Segment × Option TextElem)) : List String :=
  ps.filterMap fun p => Option.map TextElem.id p.2

/-- `x.get('area', 0)`: the area key of a layer, defaulting to 0. -/
def areaVal (l : Layer) : Int := l.area.getD 0

/-- The sort key of `_match_segments_with_text`:
`(0 if type=='background' else 1, -area-with-default-0)`, compared
lexicographically. -/
def sortKey (l : Layer) : Int × Int :=
  ((if l.type = "background" then 0 else 1), -(areaVal l))

/-- Lexicographic comparison of layer sort keys (Python tuple `<=`). -/
def layerLe (a b : Layer) : Bool :=
  decide ((sortKey a).1 < (sortKey b).1 ∨
    ((sortKey a).1 = (sortKey b).1 ∧ (sortKey a).2 ≤ (sortKey b).2))

/-- `layers.sort(key=...)`: stable sort by the layer sort key. -/
def sortLayers (layers : List Layer) : List Layer :=
  stableSort layerLe layers

/-- The layer list of `_match_segments_with_text` before the final sort:
one layer per segment (in segment order), then one layer per text element
not consumed by matching (in OCR order). -/
def assembled_layers (gtc gdc : BBox → String) (W : Int)
    (segments : List Segment) (ocr_results : List TextElem) : List Layer :=
  let sel := selectTexts segments ocr_results []
  (sel.1.map fun p => mkSegmentLayer gtc gdc W p.1 p.2) ++
    ((ocr_results.filter fun t => decide (t.id ∉ sel.2)).map
      (mkUnmatchedTextLayer gtc W))

/-- `ImageProcessor._match_segments_with_text`: assemble the layers and
apply the final stable sort. -/
def match_segments_with_text (gtc gdc : BBox → String) (W : Int)
    (segments : List Segment) (ocr_results : List TextElem) : List Layer :=
  sortLayers (assembled_layers gtc gdc W segments ocr_results)

/-! ### Text color: `OCRService.detect_font_color` -/

/-- An RGB pixel (uint8 channel values in the source). -/
structure RGB where
  r : Int
  g : Int
  b : Int
  deriving DecidableEq, Repr

/-- The numpy crop `image[y:y+h, x:x+w]` for non-negative pixel
coordinates (rows/columns clipped at the image border). -/
def cropRegion (image : List (List RGB)) (x y w h : Nat) : List (List RGB) :=
  ((image.drop y).take h).map fun row => (row.drop x).take w

/-- Truncation of a rational toward zero, the behaviour of Python's
`int()` on a float. -/
def truncToInt (q : ℚ) : Int := Int.tdiv q.num (q.den : Int)

/-- `np.median` of a list of integers: the middle element of the sorted
list for odd length, the mean of the two middle elements for even length. -/
def npMedian (l : List Int) : ℚ :=
  let s := stableSort (fun a b => decide (a ≤ b)) l
  if s.length % 2 = 1 then ((s.getD (s.length / 2) 0 : Int) : ℚ)
  else (((s.getD (s.length / 2 - 1) 0 : Int) : ℚ) + ((s.getD (s.length / 2) 0 : Int) : ℚ)) / 2

/-- `tuple(map(int, np.median(text_pixels, axis=0)))`: the per-channel
median of a pixel class, truncated to integers. -/
def medianColor (pixels : List RGB) : RGB :=
  ⟨truncToInt (npMedian (pixels.map RGB.r)),
    truncToInt (npMedian (pixels.map RGB.g)),
    truncToInt (npMedian (pixels.map RGB.b))⟩

/-- `OCRService.detect_font_color`.  The external binarization
(cv2 grayscale conversion plus Otsu's threshold) is abstracted by the
parameters `gray` (per-pixel intensity) and `thresh` (the chosen global
threshold): `binary == 0` for a pixel means its intensity is `≤ thresh`
(`cv2.THRESH_BINARY` maps an intensity `> thresh` to 255, else to 0).
Boolean-mask indexing `region[binary == 0]` flattens in row-major order,
modelled by filtering the flattened crop. -/
def detect_font_color (gray : RGB → Int) (thresh : Int)
    (image : List (List RGB)) (bbox : BBox) : RGB :=
  let region := cropRegion image bbox.x.toNat bbox.y.toNat bbox.width.toNat bbox.height.toNat
  let pixels := region.flatten
  if pixels = [] then ⟨0, 0, 0⟩
  else
    let text_pixels := pixels.filter fun p => decide (gray p ≤ thresh)
    let text_pixels := if text_pixels = [] then
        pixels.filter fun p => decide (thresh < gray p)
      else text_pixels
    if text_pixels ≠ [] then medianColor text_pixels
    else ⟨0, 0, 0⟩

/-- Text-color detection as worded by the spec (§4.5): empty or degenerate
crop gives black; otherwise the per-channel median of the dark
(below-threshold) pixel class; if that class is empty, retry with the
light pixel class; if both are empty, black.  Modelled from the spec;
compared against `detect_font_color` below. -/
def detect_font_color_spec (gray : RGB → Int) (thresh : Int)
    (image : List (List RGB)) (bbox : BBox) : RGB :=
  let region := cropRegion image bbox.x.toNat bbox.y.toNat bbox.width.toNat bbox.height.toNat
  let pixels := region.flatten
  let dark := pixels.filter fun p => decide (gray p ≤ thresh)
  let light := pixels.filter fun p => decide (thresh < gray p)
  if pixels = [] then ⟨0, 0, 0⟩
  else if dark ≠ [] then medianColor dark
  else if light ≠ [] then medianColor light
  else ⟨0, 0, 0⟩

/-! ### Properties of `_calculate_iou` (claim C4) -/

lemma iou_comm (a b : BBox) : calculate_iou a b = calculate_iou b a := by
  have hW : interW a b = interW b a := by unfold interW; omega
  have hH : interH a b = interH b a := by unfold interH; omega
  rw [iou_eq, iou_eq]
  refine if_congr (by omega) rfl
    (if_congr (by rw [hW, hH, add_comm (boxArea a)]) rfl ?_)
  rw [hW, hH, add_comm (boxArea a)]

lemma iou_guard_zero (a b : BBox) (h : interW a b < 0 ∨ interH a b < 0) :
    calculate_iou a b = 0 := by
  rw [iou_eq, if_pos (by unfold interW interH at h; omega)]

lemma iou_union_zero (a b : BBox)
    (h : boxArea a + boxArea b - interW a b * interH a b = 0) :
    calculate_iou a b = 0 := by
  rw [iou_eq]
  by_cases h1 : (min (a.x + a.width) (b.x + b.width) < max a.x b.x ∨
      min (a.y + a.height) (b.y + b.height) < max a.y b.y)
  · rw [if_pos h1]
  · rw [if_neg h1, if_pos h]

lemma iou_disjoint_zero (a b : BBox) (h : boxesDisjoint a b) :
    calculate_iou a b = 0 := by
  rw [iou_eq, if_pos (by unfold boxesDisjoint at h; omega)]

lemma iou_bounds (a b : BBox) (ha : 0 ≤ a.width) (hb : 0 ≤ a.height)
    (hc : 0 ≤ b.width) (hd : 0 ≤ b.height) :
    0 ≤ calculate_iou a b ∧ calculate_iou a b ≤ 1 := by
  rw [iou_eq]
  split_ifs with h1 h2
  · norm_num
  · norm_num
  · have hW0 : 0 ≤ interW a b := by unfold interW; omega
    have hH0 : 0 ≤ interH a b := by unfold interH; omega
    have hWa : interW a b ≤ a.width := by unfold interW; omega
    have hHa : interH a b ≤ a.height := by unfold interH; omega
    have hWb : interW a b ≤ b.width := by unfold interW; omega
    have hHb : interH a b ≤ b.height := by unfold interH; omega
    have hIA : interW a b * interH a b ≤ boxArea a := by
      unfold boxArea; exact mul_le_mul hWa hHa hH0 ha
    have hIB : interW a b * interH a b ≤ boxArea b := by
      unfold boxArea; exact mul_le_mul hWb hHb hH0 hc
    have hI0 : 0 ≤ interW a b * interH a b := mul_nonneg hW0 hH0
    have hU0 : 0 < boxArea a + boxArea b - interW a b * interH a b :=
      lt_of_le_of_ne (by linarith) (Ne.symm h2)
    constructor
    · apply div_nonneg
      · exact_mod_cast hI0
      · exact_mod_cast le_of_lt hU0
    · rw [div_le_one (by exact_mod_cast hU0)]
      exact_mod_cast (by linarith :
        interW a b * interH a b ≤ boxArea a + boxArea b - interW a b * interH a b)

lemma iou_eq_one_iff (a b : BBox) (ha : 0 ≤ a.width) (hb : 0 ≤ a.height)
    (hc : 0 ≤ b.width) (hd : 0 ≤ b.height) :
    calculate_iou a b = 1 ↔ a = b ∧ 0 < a.width * a.height := by
  rw [iou_eq]
  split_ifs with h1 h2
  · constructor
    · intro h; exact absurd h (by norm_num)
    · rintro ⟨rfl, hpos⟩
      exact absurd h1 (by omega)
  · constructor
    · intro h; exact absurd h (by norm_num)
    · rintro ⟨rfl, hpos⟩
      have hw : interW a a = a.width := by unfold interW; omega
      have hh : interH a a = a.height := by unfold interH; omega
      rw [hw, hh] at h2
      unfold boxArea at h2
      exfalso; nlinarith
  · have hW0 : 0 ≤ interW a b := by unfold interW; omega
    have hH0 : 0 ≤ interH a b := by unfold interH; omega
    have hWa : interW a b ≤ a.width := by unfold interW; omega
    have hHa : interH a b ≤ a.height := by unfold interH; omega
    have hWb : interW a b ≤ b.width := by unfold interW; omega
    have hHb : interH a b ≤ b.height := by unfold interH; omega
    have hIA : interW a b * interH a b ≤ boxArea a := by
      unfold boxArea; exact mul_le_mul hWa hHa hH0 ha
    have hIB : interW a b * interH a b ≤ boxArea b := by
      unfold boxArea; exact mul_le_mul hWb hHb hH0 hc
    have hI0 : 0 ≤ interW a b * interH a b := mul_nonneg hW0 hH0
    have hU0 : 0 < boxArea a + boxArea b - interW a b * interH a b :=
      lt_of_le_of_ne (by linarith) (Ne.symm h2)
    rw [div_eq_one_iff_eq (by exact_mod_cast hU0.ne' :
      ((boxArea a + boxArea b - interW a b * interH a b : Int) : ℚ) ≠ 0),
      Int.cast_inj]
    constructor
    · intro hIU
      have hA : interW a b * interH a b = boxArea a := by linarith
      have hB : interW a b * interH a b = boxArea b := by linarith
      have hIpos : 0 < interW a b * interH a b := by linarith
      have hA' : interW a b * interH a b = a.width * a.height := hA
      have hB' : interW a b * interH a b = b.width * b.height := hB
      have hwpos : 0 < a.width := by
        rcases ha.lt_or_eq with h | h
        · exact h
        · exfalso; nlinarith
      have hhpos : 0 < a.height := by
        rcases hb.lt_or_eq with h | h
        · exact h
        · exfalso; nlinarith
      have hwbpos : 0 < b.width := by
        rcases hc.lt_or_eq with h | h
        · exact h
        · exfalso; nlinarith
      have hhbpos : 0 < b.height := by
        rcases hd.lt_or_eq with h | h
        · exact h
        · exfalso; nlinarith
      have hHea : interH a b = a.height := by
        refine le_antisymm hHa ?_
        nlinarith [mul_le_mul_of_nonneg_right hWa hH0]
      have hWea : interW a b = a.width := by
        refine le_antisymm hWa ?_
        nlinarith [mul_le_mul_of_nonneg_left hHa (le_of_lt hwpos)]
      have hHeb : interH a b = b.height := by
        refine le_antisymm hHb ?_
        nlinarith [mul_le_mul_of_nonneg_right hWb hH0]
      have hWeb : interW a b = b.width := by
        refine le_antisymm hWb ?_
        nlinarith [mul_le_mul_of_nonneg_left hHb (le_of_lt hwbpos)]
      have hx : a.x = b.x ∧ a.width = b.width := by
        unfold interW at hWea hWeb; omega
      have hy : a.y = b.y ∧ a.height = b.height := by
        unfold interH at hHea hHeb; omega
      exact ⟨BBox.ext hx.1 hy.1 hx.2 hy.2, by nlinarith⟩
    · rintro ⟨rfl, hpos⟩
      have hw : interW a a = a.width := by unfold interW; omega
      have hh : interH a a = a.height := by unfold interH; omega
      rw [hw, hh]; unfold boxArea; ring

/-- C4 (amended): for boxes with non-negative width and height, IoU is
symmetric, lies in [0,1], equals 1 iff the boxes are identical AND have
positive area, is 0 for disjoint boxes, and is 0 whenever the computed
intersection width or height is negative or the union area is 0.  (The
original claim's "equals 1 iff identical" fails for identical zero-area
boxes, see the counterexample.) -/
theorem C4_iou_props (a b : BBox) (ha : 0 ≤ a.width) (hb : 0 ≤ a.height)
    (hc : 0 ≤ b.width) (hd : 0 ≤ b.height) :
    calculate_iou a b = calculate_iou b a ∧
    0 ≤ calculate_iou a b ∧ calculate_iou a b ≤ 1 ∧
    (calculate_iou a b = 1 ↔ a = b ∧ 0 < a.width * a.height) ∧
    (boxesDisjoint a b → calculate_iou a b = 0) ∧
    ((interW a b < 0 ∨ interH a b < 0) → calculate_iou a b = 0) ∧
    (boxArea a + boxArea b - interW a b * interH a b = 0 → calculate_iou a b = 0) :=
  ⟨iou_comm a b, (iou_bounds a b ha hb hc hd).1, (iou_bounds a b ha hb hc hd).2,
    iou_eq_one_iff a b ha hb hc hd, iou_disjoint_zero a b,
    iou_guard_zero a b, iou_union_zero a b⟩

/-- C4 counterexample: the identical degenerate boxes `{0,0,0,0}` have
non-negative width and height, but their IoU is 0, not 1 — refuting
"IoU(a,b) = 1.0 if and only if a and b are identical boxes". -/
theorem C4_counterexample :
    calculate_iou ⟨0, 0, 0, 0⟩ ⟨0, 0, 0, 0⟩ = 0 ∧
    calculate_iou ⟨0, 0, 0, 0⟩ ⟨0, 0, 0, 0⟩ ≠ 1 := by
  constructor
  · rw [iou_eq]; norm_num [interW, interH, boxArea]
  · rw [iou_eq]; norm_num [interW, interH, boxArea]

/-- Witness for `C4_iou_props` at concrete boxes: identical positive-area
boxes have IoU 1; disjoint boxes have IoU 0. -/
theorem C4_iou_props_witness :
    calculate_iou ⟨0, 0, 2, 3⟩ ⟨0, 0, 2, 3⟩ = 1 ∧
    calculate_iou ⟨0, 0, 1, 1⟩ ⟨5, 5, 1, 1⟩ = 0 := by
  constructor
  · exact ((C4_iou_props ⟨0, 0, 2, 3⟩ ⟨0, 0, 2, 3⟩ (by decide) (by decide)
      (by decide) (by decide)).2.2.2.1).mpr ⟨rfl, by decide⟩
  · exact (C4_iou_props ⟨0, 0, 1, 1⟩ ⟨5, 5, 1, 1⟩ (by decide) (by decide)
      (by decide) (by decide)).2.2.2.2.1 (by unfold boxesDisjoint; decide)

/-! ### Characterization of `_find_matching_text` (claims C1, C2, C6) -/

lemma cand_iou_gt {seg : Segment} {m : List String} {t : TextElem}
    (h : acceptedCand seg m t) : calculate_iou seg.bbox t.bbox > 3/10 := by
  rcases h.2 with h' | h'
  · linarith
  · exact h'.2

lemma find_aux_spec (seg : Segment) (matched : List String) :
    ∀ (rest : List TextElem) (best : Option TextElem) (bi : ℚ),
      (find_aux seg matched rest best bi = best ∧
        ∀ u ∈ rest, acceptedCand seg matched u → calculate_iou seg.bbox u.bbox ≤ bi) ∨
      (∃ l1 t l2, rest = l1 ++ t :: l2 ∧
        find_aux seg matched rest best bi = some t ∧
        acceptedCand seg matched t ∧
        bi < calculate_iou seg.bbox t.bbox ∧
        (∀ u ∈ l1, acceptedCand seg matched u →
          calculate_iou seg.bbox u.bbox < calculate_iou seg.bbox t.bbox) ∧
        (∀ u ∈ l2, acceptedCand seg matched u →
          calculate_iou seg.bbox u.bbox ≤ calculate_iou seg.bbox t.bbox)) := by
  intro rest
  induction rest with
  | nil =>
    intro best bi
    left
    exact ⟨rfl, by simp⟩
  | cons t rest ih =>
    intro best bi
    by_cases hm : t.id ∈ matched
    · have heq : find_aux seg matched (t :: rest) best bi =
          find_aux seg matched rest best bi := by
        simp only [find_aux, if_pos hm]
      rcases ih best bi with ⟨h1, h2⟩ | ⟨l1, t', l2, hsplit, hres, hcand, hbi, hl1, hl2⟩
      · left
        refine ⟨heq.trans h1, ?_⟩
        intro u hu hcu
        rcases List.mem_cons.mp hu with rfl | hu'
        · exact absurd hm hcu.1
        · exact h2 u hu' hcu
      · right
        refine ⟨t :: l1, t', l2, by rw [hsplit]; rfl, heq.trans hres, hcand, hbi, ?_, hl2⟩
        intro u hu hcu
        rcases List.mem_cons.mp hu with rfl | hu'
        · exact absurd hm hcu.1
        · exact hl1 u hu' hcu
    · by_cases hacc : (calculate_iou seg.bbox t.bbox > 1/2 ∨
          (containsPoint seg.bbox t.center = true ∧ calculate_iou seg.bbox t.bbox > 3/10))
      · by_cases hgt : calculate_iou seg.bbox t.bbox > bi
        · have heq : find_aux seg matched (t :: rest) best bi =
              find_aux seg matched rest (some t) (calculate_iou seg.bbox t.bbox) := by
            simp only [find_aux, if_neg hm, if_pos hacc, if_pos hgt]
          rcases ih (some t) (calculate_iou seg.bbox t.bbox) with ⟨h1, h2⟩ |
            ⟨l1, t', l2, hsplit, hres, hcand, hbi, hl1, hl2⟩
          · right
            refine ⟨[], t, rest, rfl, heq.trans h1, ⟨hm, hacc⟩, hgt, by simp, h2⟩
          · right
            refine ⟨t :: l1, t', l2, by rw [hsplit]; rfl, heq.trans hres, hcand,
              lt_trans hgt hbi, ?_, hl2⟩
            intro u hu hcu
            rcases List.mem_cons.mp hu with rfl | hu'
            · exact hbi
            · exact hl1 u hu' hcu
        · have heq : find_aux seg matched (t :: rest) best bi =
              find_aux seg matched rest best bi := by
            simp only [find_aux, if_neg hm, if_pos hacc, if_neg hgt]
          rcases ih best bi with ⟨h1, h2⟩ | ⟨l1, t', l2, hsplit, hres, hcand, hbi, hl1, hl2⟩
          · left
            refine ⟨heq.trans h1, ?_⟩
            intro u hu hcu
            rcases List.mem_cons.mp hu with rfl | hu'
            · exact not_lt.mp hgt
            · exact h2 u hu' hcu
          · right
            refine ⟨t :: l1, t', l2, by rw [hsplit]; rfl, heq.trans hres, hcand, hbi, ?_, hl2⟩
            intro u hu hcu
            rcases List.mem_cons.mp hu with rfl | hu'
            · exact lt_of_le_of_lt (not_lt.mp hgt) hbi
            · exact hl1 u hu' hcu
      · have heq : find_aux seg matched (t :: rest) best bi =
            find_aux seg matched rest best bi := by
          simp only [find_aux, if_neg hm, if_neg hacc]
        rcases ih best bi with ⟨h1, h2⟩ | ⟨l1, t', l2, hsplit, hres, hcand, hbi, hl1, hl2⟩
        · left
          refine ⟨heq.trans h1, ?_⟩
          intro u hu hcu
          rcases List.mem_cons.mp hu with rfl | hu'
          · exact absurd hcu.2 hacc
          · exact h2 u hu' hcu
        · right
          refine ⟨t :: l1, t', l2, by rw [hsplit]; rfl, heq.trans hres, hcand, hbi, ?_, hl2⟩
          intro u hu hcu
          rcases List.mem_cons.mp hu with rfl | hu'
          · exact absurd hcu.2 hacc
          · exact hl1 u hu' hcu

lemma find_some_char (seg : Segment) (ocr : List TextElem) (m : List String)
    (t : TextElem) (h : find_matching_text seg ocr m = some t) :
    acceptedCand seg m t ∧ ∃ l1 l2, ocr = l1 ++ t :: l2 ∧
      (∀ u ∈ l1, acceptedCand seg m u →
        calculate_iou seg.bbox u.bbox < calculate_iou seg.bbox t.bbox) ∧
      (∀ u ∈ l2, acceptedCand seg m u →
        calculate_iou seg.bbox u.bbox ≤ calculate_iou seg.bbox t.bbox) := by
  simp only [find_matching_text] at h
  rcases find_aux_spec seg m ocr none 0 with ⟨h1, _⟩ |
    ⟨l1, t', l2, hsplit, hres, hcand, _, hl1, hl2⟩
  · rw [h1] at h; cases h
  · rw [hres] at h
    have := Option.some.inj h
    subst this
    exact ⟨hcand, l1, l2, hsplit, hl1, hl2⟩

lemma find_none_char (seg : Segment) (ocr : List TextElem) (m : List String)
    (h : find_matching_text seg ocr m = none) :
    ∀ u ∈ ocr, ¬ acceptedCand seg m u := by
  simp only [find_matching_text] at h
  rcases find_aux_spec seg m ocr none 0 with ⟨_, h2⟩ |
    ⟨l1, t', l2, _, hres, _, _, _, _⟩
  · intro u hu hcu
    have hle := h2 u hu hcu
    have hgt := cand_iou_gt hcu
    linarith
  · rw [hres] at h; cases h

/-- C1: for every segment processed by the matching step, a not-yet-matched
text element is accepted as a candidate exactly when `iou > 0.5` or its
center lies inside the segment bbox (closed intervals) and `iou > 0.3`;
among the accepted candidates the result (when present) has the strictly
greatest IoU, ties broken in favor of the earliest candidate in iteration
order, and the result is `None` exactly when no candidate is accepted. -/
theorem C1_matching_selection (seg : Segment) (ocr : List TextElem)
    (matched : List String) :
    (find_matching_text seg ocr matched = none →
      ∀ u ∈ ocr, ¬ acceptedCand seg matched u) ∧
    (∀ t, find_matching_text seg ocr matched = some t →
      acceptedCand seg matched t ∧ ∃ l1 l2, ocr = l1 ++ t :: l2 ∧
        (∀ u ∈ l1, acceptedCand seg matched u →
          calculate_iou seg.bbox u.bbox < calculate_iou seg.bbox t.bbox) ∧
        (∀ u ∈ l2, acceptedCand seg matched u →
          calculate_iou seg.bbox u.bbox ≤ calculate_iou seg.bbox t.bbox)) :=
  ⟨find_none_char seg ocr matched, fun t h => find_some_char seg ocr matched t h⟩

/-- A sample segment: a 10×10 box at the origin. -/
def seg0 : Segment := ⟨"segment_0", "shape", ⟨0, 0, 10, 10⟩, ⟨5, 5⟩, 100, [[true]]⟩

/-- A sample text element whose bbox coincides with `seg0`'s (IoU 1). -/
def t0 : TextElem := ⟨"text_0", "hello", 9/10, ⟨0, 0, 10, 10⟩, ⟨5, 5⟩, 12⟩

/-- Witness for `C1_matching_selection`: on a concrete input where matching
succeeds with IoU 1, the selected element is an accepted candidate. -/
theorem C1_matching_selection_witness : acceptedCand seg0 [] t0 := by
  have h : find_matching_text seg0 [t0] [] = some t0 := by
    norm_num [find_matching_text, find_aux, calculate_iou, seg0, t0]
  exact ((C1_matching_selection seg0 [t0] []).2 t0 h).1

/-! ### Uniqueness of text assignment (claim C2) -/

lemma selIds_cons_some (s : Segment) (t : TextElem) (ps : List (Segment × Option TextElem)) :
    selIds ((s, some t) :: ps) = t.id :: selIds ps := by
  simp [selIds]

lemma selIds_cons_none (s : Segment) (ps : List (Segment × Option TextElem)) :
    selIds ((s, none) :: ps) = selIds ps := by
  simp [selIds]

lemma find_some_id_not_matched (seg : Segment) (ocr : List TextElem)
    (m : List String) (t : TextElem) (h : find_matching_text seg ocr m = some t) :
    t.id ∉ m :=
  (find_some_char seg ocr m t h).1.1

lemma selectTexts_snd (segs : List Segment) (ocr : List TextElem) :
    ∀ m, (selectTexts segs ocr m).2 = m ++ selIds (selectTexts segs ocr m).1 := by
  induction segs with
  | nil => intro m; simp [selectTexts, selIds]
  | cons s rest ih =>
    intro m
    simp only [selectTexts]
    cases hfind : find_matching_text s ocr m with
    | none => simpa [selIds_cons_none] using ih m
    | some t =>
      rw [selIds_cons_some]
      have := ih (m ++ [t.id])
      simp only [this, List.append_assoc, List.singleton_append]

lemma selectTexts_nodup (segs : List Segment) (ocr : List TextElem) :
    ∀ m, (∀ x ∈ selIds (selectTexts segs ocr m).1, x ∉ m) ∧
      (selIds (selectTexts segs ocr m).1).Nodup := by
  induction segs with
  | nil => intro m; simp [selectTexts, selIds]
  | cons s rest ih =>
    intro m
    simp only [selectTexts]
    cases hfind : find_matching_text s ocr m with
    | none =>
      rw [selIds_cons_none]
      exact ih m
    | some t =>
      rw [selIds_cons_some]
      have hnm : t.id ∉ m := find_some_id_not_matched s ocr m t hfind
      have ih' := ih (m ++ [t.id])
      constructor
      · intro x hx
        rcases List.mem_cons.mp hx with rfl | hx'
        · exact hnm
        · intro hxm
          exact ih'.1 x hx' (List.mem_append.mpr (Or.inl hxm))
      · refine List.nodup_cons.mpr ⟨fun hmem => ?_, ih'.2⟩
        exact ih'.1 t.id hmem (List.mem_append.mpr (Or.inr (by simp)))

/-- C2: within one assembly call, which starts from an empty matched-id
set, the final matched-id set consists exactly of the ids selected for the
segments, those ids are pairwise distinct (no text element is assigned to
two segments), and the per-segment lookup never returns a text element
whose id is already in the matched set. -/
theorem C2_no_double_assignment (segments : List Segment) (ocr : List TextElem) :
    (selectTexts segments ocr []).2 = selIds (selectTexts segments ocr []).1 ∧
    (selIds (selectTexts segments ocr []).1).Nodup ∧
    ∀ (seg : Segment) (ocr2 : List TextElem) (matched : List String) (t : TextElem),
      find_matching_text seg ocr2 matched = some t → t.id ∉ matched :=
  ⟨by simpa using selectTexts_snd segments ocr [],
    (selectTexts_nodup segments ocr []).2,
    fun seg ocr2 matched t h => find_some_id_not_matched seg ocr2 matched t h⟩

/-- Witness for `C2_no_double_assignment`: on a concrete successful match
the selected id is not in the (empty) matched set. -/
theorem C2_no_double_assignment_witness : t0.id ∉ ([] : List String) := by
  have h : find_matching_text seg0 [t0] [] = some t0 := by
    norm_num [find_matching_text, find_aux, calculate_iou, seg0, t0]
  exact (C2_no_double_assignment [] []).2.2 seg0 [t0] [] t0 h

/-! ### Zero-area text boxes never match (claim C6) -/

lemma iou_zero_dim (a t : BBox) (h : t.width = 0 ∨ t.height = 0) :
    calculate_iou a t = 0 := by
  rw [iou_eq]
  by_cases h1 : (min (a.x + a.width) (t.x + t.width) < max a.x t.x ∨
      min (a.y + a.height) (t.y + t.height) < max a.y t.y)
  · rw [if_pos h1]
  · rw [if_neg h1]
    have hW0 : 0 ≤ interW a t ∧ 0 ≤ interH a t := by unfold interW interH; omega
    have hI : interW a t * interH a t = 0 := by
      rcases h with h | h
      · have hle : interW a t ≤ 0 := by unfold interW; omega
        rw [le_antisymm hle hW0.1, zero_mul]
      · have hle : interH a t ≤ 0 := by unfold interH; omega
        rw [le_antisymm hle hW0.2, mul_zero]
    by_cases h2 : (boxArea a + boxArea t - interW a t * interH a t = 0)
    · rw [if_pos h2]
    · rw [if_neg h2, hI]
      simp

/-- C6 (amended): a zero-area text box (zero width or zero height) has
IoU 0 with every segment bbox and is NEVER selected by the matching step —
the containment branch cannot fire for it either, because that branch
still requires `iou > 0.3`.  (The original claim asserted such a box can
still match via the containment branch; the counterexample refutes it.) -/
theorem C6_zero_area_never_matches (seg : Segment) (ocr : List TextElem)
    (matched : List String) (t : TextElem)
    (h : t.bbox.width = 0 ∨ t.bbox.height = 0) :
    calculate_iou seg.bbox t.bbox = 0 ∧
    find_matching_text seg ocr matched ≠ some t := by
  have hzq := iou_zero_dim seg.bbox t.bbox h
  refine ⟨hzq, fun hfind => ?_⟩
  have hgt := cand_iou_gt (find_some_char seg ocr matched t hfind).1
  rw [hzq] at hgt
  norm_num at hgt

/-- C6 counterexample: there is NO segment, OCR list, matched set and
zero-area text element for which the matching step returns that text
element — refuting "the matching step can still match that text box to the
segment via the containment branch". -/
theorem C6_counterexample :
    ¬ ∃ (seg : Segment) (ocr : List TextElem) (matched : List String) (t : TextElem),
      (t.bbox.width = 0 ∨ t.bbox.height = 0) ∧
      find_matching_text seg ocr matched = some t := by
  rintro ⟨seg, ocr, matched, t, hdeg, hfind⟩
  have hzq := iou_zero_dim seg.bbox t.bbox hdeg
  have hgt := cand_iou_gt (find_some_char seg ocr matched t hfind).1
  rw [hzq] at hgt
  norm_num at hgt

/-- A sample zero-width text element whose center `(5, 6.5)` lies inside
`seg0`'s bbox (it would satisfy the containment test, yet never matches). -/
def tZ : TextElem := ⟨"text_z", "z", 1, ⟨5, 5, 0, 3⟩, ⟨5, 13/2⟩, 8⟩

/-- Witness for `C6_zero_area_never_matches` at a concrete zero-width text
box with center inside the segment. -/
theorem C6_zero_area_never_matches_witness :
    calculate_iou seg0.bbox tZ.bbox = 0 ∧
    find_matching_text seg0 [tZ] [] ≠ some tZ :=
  C6_zero_area_never_matches seg0 [tZ] [] tZ (Or.inl rfl)

/-! ### Stable-sort lemmas -/

lemma insertOrd_perm (le : α → α → Bool) (x : α) :
    ∀ ys : List α, (insertOrd le x ys).Perm (x :: ys) := by
  intro ys
  induction ys with
  | nil => simp [insertOrd]
  | cons y ys ih =>
    simp only [insertOrd]
    by_cases h : le x y
    · rw [if_pos h]
    · rw [if_neg h]
      exact (ih.cons y).trans (List.Perm.swap x y ys)

lemma stableSort_perm (le : α → α → Bool) :
    ∀ l : List α, (stableSort le l).Perm l := by
  intro l
  induction l with
  | nil => simp [stableSort]
  | cons x xs ih =>
    simp only [stableSort]
    exact (insertOrd_perm le x _).trans (ih.cons x)

lemma mem_insertOrd {le : α → α → Bool} {x z : α} {ys : List α} :
    z ∈ insertOrd le x ys ↔ z = x ∨ z ∈ ys := by
  rw [(insertOrd_perm le x ys).mem_iff]
  simp

lemma insertOrd_pairwise {le : α → α → Bool}
    (htrans : ∀ a b c, le a b = true → le b c = true → le a c = true)
    (htotal : ∀ a b, (le a b || le b a) = true) (x : α) :
    ∀ ys : List α, List.Pairwise (fun a b => le a b = true) ys →
      List.Pairwise (fun a b => le a b = true) (insertOrd le x ys) := by
  intro ys
  induction ys with
  | nil => intro _; simp [insertOrd]
  | cons y ys ih =>
    intro hp
    obtain ⟨hy, hys⟩ := List.pairwise_cons.mp hp
    simp only [insertOrd]
    by_cases h : le x y
    · rw [if_pos h]
      refine List.pairwise_cons.mpr ⟨?_, hp⟩
      intro z hz
      rcases List.mem_cons.mp hz with rfl | hz'
      · exact h
      · exact htrans x y z h (hy z hz')
    · rw [if_neg h]
      have hyx : le y x = true := by
        have htot := htotal x y
        cases hxy : le x y
        · simpa [hxy] using htot
        · exact absurd hxy h
      refine List.pairwise_cons.mpr ⟨?_, ih hys⟩
      intro z hz
      rcases mem_insertOrd.mp hz with rfl | hz'
      · exact hyx
      · exact hy z hz'

lemma stableSort_pairwise {le : α → α → Bool}
    (htrans : ∀ a b c, le a b = true → le b c = true → le a c = true)
    (htotal : ∀ a b, (le a b || le b a) = true) :
    ∀ l : List α, List.Pairwise (fun a b => le a b = true) (stableSort le l) := by
  intro l
  induction l with
  | nil => simp [stableSort]
  | cons x xs ih =>
    simp only [stableSort]
    exact insertOrd_pairwise htrans htotal x _ ih

lemma filter_insertOrd (le : α → α → Bool) (p : α → Bool) (x : α)
    (hpx : p x = true → ∀ y, p y = true → le x y = true) :
    ∀ ys : List α, (insertOrd le x ys).filter p =
      if p x then x :: ys.filter p else ys.filter p := by
  intro ys
  induction ys with
  | nil =>
    by_cases h : p x <;> simp [insertOrd, h]
  | cons y ys ih =>
    simp only [insertOrd]
    by_cases hle : le x y
    · rw [if_pos hle]
      by_cases hpx' : p x
      · simp [List.filter_cons, hpx']
      · simp [List.filter_cons, hpx']
    · rw [if_neg hle]
      by_cases hpx' : p x
      · have hpy : p y = false := by
          cases hpy : p y
          · rfl
          · exact absurd (hpx hpx' y hpy) hle
        simp [List.filter_cons, hpy, hpx', ih]
      · simp [List.filter_cons, hpx', ih]

lemma filter_stableSort (le : α → α → Bool) (p : α → Bool)
    (hp : ∀ a b, p a = true → p b = true → le a b = true) :
    ∀ l : List α, (stableSort le l).filter p = l.filter p := by
  intro l
  induction l with
  | nil => rfl
  | cons x xs ih =>
    simp only [stableSort]
    rw [filter_insertOrd le p x (fun hx y hy => hp x y hx hy)]
    by_cases hx : p x
    · simp [List.filter_cons, hx, ih]
    · simp [List.filter_cons, hx, ih]

/-! ### The layer order -/

lemma layerLe_trans :
    ∀ a b c : Layer, layerLe a b = true → layerLe b c = true → layerLe a c = true := by
  intro a b c hab hbc
  simp only [layerLe, decide_eq_true_eq] at hab hbc ⊢
  omega

lemma layerLe_total : ∀ a b : Layer, (layerLe a b || layerLe b a) = true := by
  intro a b
  simp only [layerLe, Bool.or_eq_true, decide_eq_true_eq]
  omega

lemma sortLayers_pairwise (ls : List Layer) :
    List.Pairwise (fun a b => layerLe a b = true) (sortLayers ls) :=
  stableSort_pairwise layerLe_trans layerLe_total ls

/-! ### Output ordering (claim C3) -/

/-- C3: in every assembled output list, every layer following a
non-background layer is itself non-background (equivalently, backgrounds
come first), the effective area (`x.get('area', 0)`) is non-increasing
once the non-background region starts, and the sort is stable: for every
sort key, the layers carrying that key appear in exactly the order they
had in the pre-sort assembled list. -/
theorem C3_layer_ordering (gtc gdc : BBox → String) (W : Int)
    (segments : List Segment) (ocr : List TextElem) :
    (∀ (i j : Nat) (hij : i < j)
      (hj : j < (match_segments_with_text gtc gdc W segments ocr).length),
      (((match_segments_with_text gtc gdc W segments ocr).get ⟨j, hj⟩).type = "background" →
        ((match_segments_with_text gtc gdc W segments ocr).get
          ⟨i, Nat.lt_trans hij hj⟩).type = "background") ∧
      (((match_segments_with_text gtc gdc W segments ocr).get
          ⟨i, Nat.lt_trans hij hj⟩).type ≠ "background" →
        areaVal ((match_segments_with_text gtc gdc W segments ocr).get ⟨j, hj⟩) ≤
          areaVal ((match_segments_with_text gtc gdc W segments ocr).get
            ⟨i, Nat.lt_trans hij hj⟩))) ∧
    (∀ k : Int × Int,
      (match_segments_with_text gtc gdc W segments ocr).filter
        (fun l => decide (sortKey l = k)) =
      (assembled_layers gtc gdc W segments ocr).filter
        (fun l => decide (sortKey l = k))) := by
  constructor
  · intro i j hij hj
    have hpw := sortLayers_pairwise (assembled_layers gtc gdc W segments ocr)
    rw [show sortLayers (assembled_layers gtc gdc W segments ocr) =
      match_segments_with_text gtc gdc W segments ocr from rfl] at hpw
    have hrel := List.pairwise_iff_get.mp hpw ⟨i, Nat.lt_trans hij hj⟩ ⟨j, hj⟩ hij
    simp only [layerLe, decide_eq_true_eq, sortKey, areaVal] at hrel
    constructor
    · intro hbg
      by_contra hne
      rw [if_pos hbg, if_neg hne] at hrel
      omega
    · intro hnbg
      rw [if_neg hnbg] at hrel
      by_cases hj' : ((match_segments_with_text gtc gdc W segments ocr).get
          ⟨j, hj⟩).type = "background"
      · rw [if_pos hj'] at hrel
        simp only [areaVal]
        omega
      · rw [if_neg hj'] at hrel
        simp only [areaVal]
        omega
  · intro k
    exact filter_stableSort layerLe (fun l => decide (sortKey l = k))
      (fun a b ha hb => by
        simp only [decide_eq_true_eq] at ha hb
        simp [layerLe, ha, hb])
      (assembled_layers gtc gdc W segments ocr)

/-- A constant color sampler standing in for the image-dependent samplers
in concrete witnesses. -/
def cFun : BBox → String := fun _ => "#000000"

/-- A sample background segment of area 80. -/
def segB1 : Segment := ⟨"segment_1", "background", ⟨0, 0, 10, 10⟩, ⟨5, 5⟩, 80, []⟩

/-- A second sample background segment of area 60. -/
def segB2 : Segment := ⟨"segment_2", "background", ⟨0, 0, 8, 8⟩, ⟨4, 4⟩, 60, []⟩

/-- A sample shape segment of area 5. -/
def segS1 : Segment := ⟨"segment_3", "shape", ⟨0, 0, 3, 3⟩, ⟨1, 1⟩, 5, []⟩

/-- A second sample shape segment of area 3. -/
def segS2 : Segment := ⟨"segment_4", "shape", ⟨0, 0, 2, 2⟩, ⟨1, 1⟩, 3, []⟩

/-- Witness for `C3_layer_ordering` on concrete inputs: with two background
segments the earlier output slot is background; with two shape segments the
later slot has no larger area. -/
theorem C3_layer_ordering_witness :
    ((match_segments_with_text cFun cFun 100 [segB1, segB2] []).get
      ⟨0, by decide⟩).type = "background" ∧
    areaVal ((match_segments_with_text cFun cFun 100 [segS1, segS2] []).get
      ⟨1, by decide⟩) ≤
      areaVal ((match_segments_with_text cFun cFun 100 [segS1, segS2] []).get
        ⟨0, by decide⟩) := by
  constructor
  · exact ((C3_layer_ordering cFun cFun 100 [segB1, segB2] []).1 0 1
      (by decide) (by decide)).1 (by decide)
  · exact ((C3_layer_ordering cFun cFun 100 [segS1, segS2] []).1 0 1
      (by decide) (by decide)).2 (by decide)

/-! ### Exactly one of `text`/`style` (claim C7) -/

/-- C7: every layer in the assembled output carries exactly one of the
`text` and `style` substructures: either `text` is present and `style`
absent (segment layers matched to a text element, and unmatched-text
layers), or `text` is absent and `style` present (unmatched segment
layers). -/
theorem C7_exactly_one_substructure (gtc gdc : BBox → String) (W : Int)
    (segments : List Segment) (ocr : List TextElem) :
    ∀ l ∈ match_segments_with_text gtc gdc W segments ocr,
      (l.text.isSome = true ∧ l.style = none) ∨
      (l.text = none ∧ l.style.isSome = true) := by
  intro l hl
  have hl' : l ∈ assembled_layers gtc gdc W segments ocr :=
    (stableSort_perm layerLe (assembled_layers gtc gdc W segments ocr)).mem_iff.mp hl
  simp only [assembled_layers, List.mem_append, List.mem_map, List.mem_filter] at hl'
  rcases hl' with ⟨⟨s, m⟩, _, rfl⟩ | ⟨t, _, rfl⟩
  · cases m with
    | some mt => simp [mkSegmentLayer]
    | none => simp [mkSegmentLayer]
  · simp [mkUnmatchedTextLayer]

/-- A sample text element with integer-valued fields. -/
def tI : TextElem := ⟨"text_1", "hi", 1, ⟨0, 0, 4, 2⟩, ⟨2, 1⟩, 10⟩

/-- Witness for `C7_exactly_one_substructure`: a concrete unmatched-text
layer in a concrete output carries `text` and no `style`. -/
theorem C7_exactly_one_substructure_witness :
    ((mkUnmatchedTextLayer cFun 100 tI).text.isSome = true ∧
      (mkUnmatchedTextLayer cFun 100 tI).style = none) ∨
    ((mkUnmatchedTextLayer cFun 100 tI).text = none ∧
      (mkUnmatchedTextLayer cFun 100 tI).style.isSome = true) :=
  C7_exactly_one_substructure cFun cFun 100 [] [tI]
    (mkUnmatchedTextLayer cFun 100 tI) (List.mem_singleton.mpr rfl)

/-! ### The `area` field (claim C8) -/

/-- C8 counterexample: on the concrete input with no segments and one text
element, the single assembled layer (built from the text element not
consumed by matching) carries NO `area` field — refuting "every layer,
including those built from text elements not consumed by matching, carries
the `area` field". -/
theorem C8_counterexample :
    (match_segments_with_text cFun cFun 100 [] [tI]).map Layer.area = [none] := rfl

/-- C8 (amended): the assembled output is a permutation of the pre-sort
assembled list; every segment-derived layer (matched or not) carries
`area`, equal to the segment's area, while every layer built from an
unmatched text element carries no `area` field (the final sort reads it
with default 0). -/
theorem C8_area_field (gtc gdc : BBox → String) (W : Int)
    (segments : List Segment) (ocr : List TextElem) :
    (match_segments_with_text gtc gdc W segments ocr).Perm
      (assembled_layers gtc gdc W segments ocr) ∧
    (∀ (s : Segment) (m : Option TextElem),
      (mkSegmentLayer gtc gdc W s m).area = some s.area) ∧
    (∀ t : TextElem, (mkUnmatchedTextLayer gtc W t).area = none) := by
  refine ⟨stableSort_perm layerLe _, ?_, fun t => rfl⟩
  intro s m
  cases m <;> rfl

/-! ### Output cardinality (claim C10) -/

lemma selectTexts_fst_map (segs : List Segment) (ocr : List TextElem) :
    ∀ m, (selectTexts segs ocr m).1.map Prod.fst = segs := by
  induction segs with
  | nil => intro m; rfl
  | cons s rest ih =>
    intro m
    simp only [selectTexts, List.map_cons]
    rw [ih]

/-- C10: the assembled output contains exactly one layer per input segment
(the selection pass pairs each segment, in order, with its optional match)
plus exactly one layer per text element not consumed by matching, so the
output length is `len(segments)` plus the number of unmatched text
elements. -/
theorem C10_output_count (gtc gdc : BBox → String) (W : Int)
    (segments : List Segment) (ocr : List TextElem) :
    (selectTexts segments ocr []).1.map Prod.fst = segments ∧
    (match_segments_with_text gtc gdc W segments ocr).length =
      segments.length +
        (ocr.filter fun t => decide (t.id ∉ (selectTexts segments ocr []).2)).length := by
  refine ⟨selectTexts_fst_map segments ocr [], ?_⟩
  have hsl : (selectTexts segments ocr []).1.length = segments.length := by
    have := congrArg List.length (selectTexts_fst_map segments ocr [])
    simpa using this
  have hlen := (stableSort_perm layerLe
    (assembled_layers gtc gdc W segments ocr)).length_eq
  calc (match_segments_with_text gtc gdc W segments ocr).length
      = (assembled_layers gtc gdc W segments ocr).length := hlen
    _ = _ := by simp [assembled_layers, hsl]

/-! ### Classifier rule order and boundaries (claim C5) -/

/-- C5: the segment classifier is exactly the first-match-wins evaluation
of its four ordered rules (background, text, icon, default shape); in
particular a segment with area ratio exactly 0.5 is NOT classified
`background` (the comparison is strict, the sample falls through to
`shape`), while area ratio 0.5000001 is classified `background`. -/
theorem C5_classifier_rules :
    (∀ (aspect : ℚ) (area : Int) (shape : Int × Int),
      infer_segment_type aspect area shape =
        evalRules (classifierSpecRules aspect
          ((area : ℚ) / ((shape.1 * shape.2 : Int) : ℚ))) "shape") ∧
    (∀ (aspect : ℚ) (area : Int) (shape : Int × Int),
      (area : ℚ) / ((shape.1 * shape.2 : Int) : ℚ) > 1/2 ↔
        infer_segment_type aspect area shape = "background") ∧
    infer_segment_type 100 1 (1, 2) = "shape" ∧
    infer_segment_type 1 5000001 (10000, 1000) = "background" := by
  refine ⟨?_, ?_, by norm_num [infer_segment_type], by norm_num [infer_segment_type]⟩
  · intro aspect area shape
    simp only [infer_segment_type, evalRules, classifierSpecRules, decide_eq_true_eq]
  · intro aspect area shape
    constructor
    · intro h
      simp only [infer_segment_type]
      rw [if_pos h]
    · intro h
      by_contra hr
      simp only [infer_segment_type, if_neg hr] at h
      split_ifs at h <;> exact absurd h (by decide)

/-- Witness for `C5_classifier_rules`: the background iff applied at a
concrete area ratio 3/4. -/
theorem C5_classifier_rules_witness :
    infer_segment_type 1 3 (2, 2) = "background" :=
  (C5_classifier_rules.2.1 1 3 (2, 2)).mp (by push_cast; norm_num)

/-! ### Text-color detection (claim C9) -/

/-- C9: `detect_font_color` agrees, for every binarization (any intensity
map and threshold), every image and every bbox, with the spec's
description: black for an empty crop, else the per-channel median of the
dark (below-threshold) pixel class, falling back to the light class when
the dark class is empty, and black when both classes are empty; in
particular an empty region yields `(0,0,0)` (and the Lean model is total,
so no exception is possible). -/
theorem C9_font_color_spec :
    (∀ (gray : RGB → Int) (thresh : Int) (image : List (List RGB)) (bbox : BBox),
      detect_font_color gray thresh image bbox =
        detect_font_color_spec gray thresh image bbox) ∧
    (∀ (gray : RGB → Int) (thresh : Int),
      detect_font_color gray thresh [] ⟨0, 0, 0, 0⟩ = ⟨0, 0, 0⟩) := by
  constructor
  · intro gray thresh image bbox
    simp only [detect_font_color, detect_font_color_spec]
    by_cases hpix : (cropRegion image bbox.x.toNat bbox.y.toNat
        bbox.width.toNat bbox.height.toNat).flatten = []
    · rw [if_pos hpix, if_pos hpix]
    · rw [if_neg hpix, if_neg hpix]
      by_cases hdark : (cropRegion image bbox.x.toNat bbox.y.toNat
          bbox.width.toNat bbox.height.toNat).flatten.filter
            (fun p => decide (gray p ≤ thresh)) = []
      · rw [if_pos hdark, if_neg (not_not_intro hdark)]
      · simp only [if_neg hdark, if_pos hdark]
  · intro gray thresh
    rfl
